import Mathlib

/-!
Shallow embedding of the alignment core of `quran/tasks.py`
(`generate_recitation_surah_timestamps_task`, lines 137-260), the only
component of the repository with algorithmic content: the greedy
forward-cursor matcher that pairs the surah's ordered word list with the
timed word events returned by the external forced-alignment service, and
the orchestration around it (empty-input short-circuit, HTTP error
handling, per-record persistence, success/failure notification).

Time offsets (seconds) are modelled as rationals.  The canonical token
sequence is modelled by its ordered list of texts: a token's index is its
position in that list, which is exactly how the Python code addresses
`words[word_idx]`.
-/

namespace QuranTasks

/-- One timed word event of the alignment response, after all required
dict keys have been read successfully: `text` and `start` are present,
`end` is optional (`word_data.get('end')`).  Mirrors the JSON objects
`{ text, start, end? }` consumed at lines 182-190 of `tasks.py`. -/
structure TimedEvent where
  text : String
  start : ℚ
  stop : Option ℚ
deriving DecidableEq

/-- One raw JSON object of the alignment response body, before key
access: any of the keys `text`, `start`, `end` may be absent.  Reading an
absent `text` or `start` key (`word_data['text']`, `word_data['start']`)
raises a `KeyError`; `end` is read with `.get` and never raises. -/
structure RawEvent where
  text : Option String
  start : Option ℚ
  stop : Option ℚ
deriving DecidableEq

/-- One persisted `RecitationSurahTimestamp` row, identified by the index
of the word it binds (position of `word_obj` in the ordered `words`
list), the start offset and the optional end offset (lines 189-203). -/
structure TimestampRecord where
  wordIndex : Nat
  startTime : ℚ
  endTime : Option ℚ
deriving DecidableEq

/-- Python truthiness of the value `word_data.get('end')`: `None`, `0`
and `0.0` are falsy, every other number is truthy (line 190). -/
def truthy : Option ℚ → Bool
  | none => false
  | some x => decide (x ≠ 0)

/-- Build the record persisted for a matched (word, event) pair
(lines 189-203): the start offset is stored unconditionally, the end
offset only when `word_data.get('end')` is truthy. -/
def mkRecord (j : Nat) (e : TimedEvent) : TimestampRecord :=
  { wordIndex := j
    startTime := e.start
    endTime := if truthy e.stop then e.stop else none }

/-- Helper for `scanForward`: walk the tokens not yet consumed while
counting the absolute index `i`. -/
def scanAux : List String → Nat → String → Nat
  | [], i, _ => i
  | w :: ws, i, t => if w = t then i else scanAux ws (i + 1) t

/-- The inner scan of line 185:
`while word_idx < len(words) and words[word_idx].text != word_data['text']: word_idx += 1`.
Returns the first index `≥ i` whose text equals `t`, or `words.length`
when no such index exists (or `i` itself when `i ≥ words.length`). -/
def scanForward (words : List String) (i : Nat) (t : String) : Nat :=
  scanAux (words.drop i) i t

/-- `scanForward` satisfies the literal recurrence of the `while` loop of
line 185. -/
theorem scanForward_eq (words : List String) (i : Nat) (t : String) :
    scanForward words i t =
      if h : i < words.length then
        if words.get ⟨i, h⟩ = t then i else scanForward words (i + 1) t
      else i := by
  unfold scanForward
  by_cases h : i < words.length
  · rw [List.drop_eq_getElem_cons h]
    simp only [h, dif_pos, scanAux, List.get_eq_getElem]
  · rw [List.drop_eq_nil_of_le (Nat.le_of_not_lt h)]
    simp [scanAux, h]

/-- One iteration of the event loop as it acts on the cursor `word_idx`:
scan forward for the event's text, then advance one past the match when
one was found (lines 185-204). -/
def stepCursor (words : List String) (i : Nat) (e : TimedEvent) : Nat :=
  if scanForward words i e.text < words.length then scanForward words i e.text + 1
  else scanForward words i e.text

/-- The matching loop of lines 181-205 over well-formed events, started
at cursor `i`: for each event scan forward for its text; on a match emit
a record and advance the cursor past it, otherwise the event contributes
nothing.  Returns the emitted records in order together with the final
cursor value. -/
def matchStep (words : List String) : Nat → List TimedEvent → List TimestampRecord × Nat
  | i, [] => ([], i)
  | i, e :: es =>
    let j := scanForward words i e.text
    if j < words.length then
      let rest := matchStep words (j + 1) es
      (mkRecord j e :: rest.1, rest.2)
    else
      matchStep words j es

/-- The full matching pass of lines 181-205: cursor starts at `0`
(`word_idx = 0`), records are emitted in loop order. -/
def matchWords (words : List String) (events : List TimedEvent) : List TimestampRecord :=
  (matchStep words 0 events).1

/-- The matching loop of lines 181-205 over raw events, with the
persistence of each record as it is created and the possibility of a
`KeyError` escaping the loop.  `word_data['text']` is only evaluated
when `word_idx < len(words)` (the `while` condition short-circuits), and
`word_data['start']` only inside the `if word_idx < len(words)` branch.
Returns the records persisted so far, the cursor, and the error that
aborted the loop, if any. -/
def matchLoopRaw (words : List String) :
    Nat → List RawEvent → List TimestampRecord → List TimestampRecord × Nat × Option String
  | i, [], acc => (acc, i, none)
  | i, e :: es, acc =>
    if i < words.length then
      match e.text with
      | none => (acc, i, some "KeyError: text")
      | some t =>
        let j := scanForward words i t
        if j < words.length then
          match e.start with
          | none => (acc, j, some "KeyError: start")
          | some s => matchLoopRaw words (j + 1) es (acc ++ [mkRecord j ⟨t, s, e.stop⟩])
        else
          matchLoopRaw words j es acc
    else
      matchLoopRaw words i es acc

/-- Embedding of a well-formed event into a raw response object with all
required keys present. -/
def RawEvent.ofTimed (e : TimedEvent) : RawEvent :=
  ⟨some e.text, some e.start, e.stop⟩

/-- `message_type` of a `Notification` row created by the task:
`MESSAGE_TYPE_SUCCESS` or `MESSAGE_TYPE_FAILED`. -/
inductive MessageType where
  | success
  | failed
deriving DecidableEq

/-- The string returned by the task body, as a variant type:
`'timestamps generated'` (line 218), `'Failed: missing audio_url or
text'` (line 246), or `'Failed to generate timestamps: ...'` with the
exception text (lines 232 and 260). -/
inductive TaskResult where
  | generated
  | missingInput
  | failedGenerate (cause : String)
deriving DecidableEq

/-- The alignment service response as the task observes it: the HTTP
status code, and the decoded JSON body when the body parses as a list of
objects (`none` models a body on which `align_response.json()` raises). -/
structure HttpResponse where
  status : Nat
  body : Option (List RawEvent)
deriving DecidableEq

/-- Everything observable of one run of the task: the returned value,
whether the outbound HTTP request was issued, the timestamp rows
persisted, and the notifications created (in order).  Notifications are
created only when `recitation.creator` resolves to a user. -/
structure RunOutcome where
  result : TaskResult
  networkCalled : Bool
  persisted : List TimestampRecord
  notifications : List MessageType
deriving DecidableEq

/-- The task body from line 160 on, for a fixed service response:
`if audio_url and text:` guards the network call (empty strings are
falsy); `align_response.raise_for_status()` raises exactly for status
codes in `[400, 600)`; `align_response.json()` raises on an unparseable
body; a `KeyError` escaping the matching loop is caught by the inner
`except` after the records already created were persisted; each
terminal branch creates one notification when a user is available and
returns its result string. -/
def runTask (audioUrl : String) (words : List String) (user : Bool)
    (resp : HttpResponse) : RunOutcome :=
  let text := String.intercalate " " words
  if audioUrl = "" ∨ text = "" then
    { result := .missingInput, networkCalled := false, persisted := []
      notifications := if user then [.failed] else [] }
  else if 400 ≤ resp.status ∧ resp.status < 600 then
    { result := .failedGenerate "HTTPError", networkCalled := true, persisted := []
      notifications := if user then [.failed] else [] }
  else
    match resp.body with
    | none =>
      { result := .failedGenerate "JSONDecodeError", networkCalled := true, persisted := []
        notifications := if user then [.failed] else [] }
    | some events =>
      match matchLoopRaw words 0 events [] with
      | (recs, _, some err) =>
        { result := .failedGenerate err, networkCalled := true, persisted := recs
          notifications := if user then [.failed] else [] }
      | (recs, _, none) =>
        { result := .generated, networkCalled := true, persisted := recs
          notifications := if user then [.success] else [] }

/-! ### Basic lemmas about the inner scan -/

theorem scanAux_ge (t : String) : ∀ (ws : List String) (i : Nat), i ≤ scanAux ws i t := by
  intro ws
  induction ws with
  | nil => intro i; exact Nat.le_refl i
  | cons w ws ih =>
    intro i
    by_cases h : w = t
    · simp [scanAux, h]
    · have := ih (i + 1)
      simp only [scanAux, h, if_false]
      omega

theorem scanAux_le (t : String) :
    ∀ (ws : List String) (i : Nat), scanAux ws i t ≤ i + ws.length := by
  intro ws
  induction ws with
  | nil => intro i; simp [scanAux]
  | cons w ws ih =>
    intro i
    by_cases h : w = t
    · simp [scanAux, h]
    · have := ih (i + 1)
      simp only [scanAux, h, if_false, List.length_cons]
      omega

theorem scanAux_of_not_mem (t : String) :
    ∀ (ws : List String) (i : Nat), t ∉ ws → scanAux ws i t = i + ws.length := by
  intro ws
  induction ws with
  | nil => intro i _; simp [scanAux]
  | cons w ws ih =>
    intro i hmem
    have hw : ¬ w = t := fun h => hmem (h ▸ List.mem_cons_self w ws)
    have hws : t ∉ ws := fun h => hmem (List.mem_cons_of_mem w h)
    simp only [scanAux, hw, if_false, ih (i + 1) hws, List.length_cons]
    omega

/-- The cursor never moves backwards during the inner scan. -/
theorem scanForward_ge (words : List String) (i : Nat) (t : String) :
    i ≤ scanForward words i t :=
  scanAux_ge t (words.drop i) i

/-- The inner scan never leaves the index range `[0, words.length]`. -/
theorem scanForward_le_length (words : List String) (i : Nat) (t : String)
    (hi : i ≤ words.length) : scanForward words i t ≤ words.length := by
  have h := scanAux_le t (words.drop i) i
  rwa [List.length_drop, Nat.add_sub_cancel' hi] at h

theorem scanForward_of_ge (words : List String) (i : Nat) (t : String)
    (hi : words.length ≤ i) : scanForward words i t = i := by
  unfold scanForward
  rw [List.drop_eq_nil_of_le hi]
  rfl

/-- When the event text occurs nowhere among the unconsumed tokens, the
scan runs off the end of the token list. -/
theorem scanForward_of_not_mem (words : List String) (i : Nat) (t : String)
    (hi : i ≤ words.length) (hmem : t ∉ words.drop i) :
    scanForward words i t = words.length := by
  unfold scanForward
  rw [scanAux_of_not_mem t _ i hmem, List.length_drop]
  omega

/-- When the scan starts on a matching token it does not move. -/
theorem scanForward_of_match (words : List String) (i : Nat) (t : String)
    (h : i < words.length) (he : words.get ⟨i, h⟩ = t) :
    scanForward words i t = i := by
  simp only [List.get_eq_getElem] at he
  rw [scanForward_eq]
  simp [h, he]

/-! ### Basic lemmas about the matching loop -/

theorem matchStep_nil (words : List String) (i : Nat) :
    matchStep words i [] = ([], i) := rfl

theorem matchStep_cons (words : List String) (i : Nat) (e : TimedEvent)
    (es : List TimedEvent) :
    matchStep words i (e :: es) =
      if scanForward words i e.text < words.length then
        (mkRecord (scanForward words i e.text) e ::
            (matchStep words (scanForward words i e.text + 1) es).1,
          (matchStep words (scanForward words i e.text + 1) es).2)
      else matchStep words (scanForward words i e.text) es := rfl

/-- A run started with the cursor already at (or past) the end of the
token list emits nothing and leaves the cursor where it was. -/
theorem matchStep_of_ge (words : List String) :
    ∀ (es : List TimedEvent) (i : Nat), words.length ≤ i →
      matchStep words i es = ([], i) := by
  intro es
  induction es with
  | nil => intro i _; rfl
  | cons e es ih =>
    intro i hi
    rw [matchStep_cons, scanForward_of_ge words i e.text hi]
    simp only [Nat.not_lt.mpr hi, if_false]
    exact ih i hi

/-- The final cursor is never below the initial cursor. -/
theorem matchStep_cursor_ge (words : List String) :
    ∀ (es : List TimedEvent) (i : Nat), i ≤ (matchStep words i es).2 := by
  intro es
  induction es with
  | nil => intro i; exact Nat.le_refl i
  | cons e es ih =>
    intro i
    rw [matchStep_cons]
    have h1 := scanForward_ge words i e.text
    by_cases h : scanForward words i e.text < words.length
    · simp only [h, if_true]
      have h2 := ih (scanForward words i e.text + 1)
      omega
    · simp only [h, if_false]
      have h2 := ih (scanForward words i e.text)
      omega

/-- At most one record per event. -/
theorem matchStep_length_le_events (words : List String) :
    ∀ (es : List TimedEvent) (i : Nat), (matchStep words i es).1.length ≤ es.length := by
  intro es
  induction es with
  | nil => intro i; simp [matchStep_nil]
  | cons e es ih =>
    intro i
    rw [matchStep_cons]
    by_cases h : scanForward words i e.text < words.length
    · simp only [h, if_true, List.length_cons]
      have h2 := ih (scanForward words i e.text + 1)
      omega
    · simp only [h, if_false, List.length_cons]
      have h2 := ih (scanForward words i e.text)
      omega

/-- At most one record per unconsumed token. -/
theorem matchStep_length_le_words (words : List String) :
    ∀ (es : List TimedEvent) (i : Nat),
      (matchStep words i es).1.length ≤ words.length - i := by
  intro es
  induction es with
  | nil => intro i; simp [matchStep_nil]
  | cons e es ih =>
    intro i
    rw [matchStep_cons]
    have h1 := scanForward_ge words i e.text
    by_cases h : scanForward words i e.text < words.length
    · simp only [h, if_true, List.length_cons]
      have h2 := ih (scanForward words i e.text + 1)
      omega
    · simp only [h, if_false]
      have h2 := ih (scanForward words i e.text)
      omega

/-- Every emitted record binds a token at or after the starting cursor. -/
theorem matchStep_index_ge (words : List String) :
    ∀ (es : List TimedEvent) (i : Nat) (r : TimestampRecord),
      r ∈ (matchStep words i es).1 → i ≤ r.wordIndex := by
  intro es
  induction es with
  | nil => intro i r hr; simp [matchStep_nil] at hr
  | cons e es ih =>
    intro i r hr
    rw [matchStep_cons] at hr
    have h1 := scanForward_ge words i e.text
    by_cases h : scanForward words i e.text < words.length
    · simp only [h, if_true, List.mem_cons] at hr
      rcases hr with h0 | hmem
      · subst h0; exact h1
      · have h2 := ih (scanForward words i e.text + 1) r hmem
        omega
    · simp only [h, if_false] at hr
      have h2 := ih (scanForward words i e.text) r hr
      omega

/-- The emitted records bind strictly increasing token indices: no token
index is ever bound by two records of the same run. -/
theorem matchStep_index_pairwise (words : List String) :
    ∀ (es : List TimedEvent) (i : Nat),
      ((matchStep words i es).1.map TimestampRecord.wordIndex).Pairwise (fun a b => a < b) := by
  intro es
  induction es with
  | nil => intro i; simp [matchStep_nil]
  | cons e es ih =>
    intro i
    rw [matchStep_cons]
    by_cases h : scanForward words i e.text < words.length
    · simp only [h, if_true, List.map_cons, List.pairwise_cons]
      refine ⟨?_, ih (scanForward words i e.text + 1)⟩
      intro b hb
      simp only [List.mem_map] at hb
      obtain ⟨r, hr, hb⟩ := hb
      have h2 := matchStep_index_ge words es (scanForward words i e.text + 1) r hr
      show (mkRecord (scanForward words i e.text) e).wordIndex < b
      simp only [mkRecord]
      omega
    · simp only [h, if_false]
      exact ih (scanForward words i e.text)

/-- The start offsets of the emitted records form a subsequence, in
order, of the start offsets of the events. -/
theorem matchStep_start_sublist (words : List String) :
    ∀ (es : List TimedEvent) (i : Nat),
      ((matchStep words i es).1.map TimestampRecord.startTime).Sublist
        (es.map TimedEvent.start) := by
  intro es
  induction es with
  | nil => intro i; simp [matchStep_nil]
  | cons e es ih =>
    intro i
    rw [matchStep_cons]
    by_cases h : scanForward words i e.text < words.length
    · simp only [h, if_true, List.map_cons]
      exact List.Sublist.cons₂ e.start (ih (scanForward words i e.text + 1))
    · simp only [h, if_false, List.map_cons]
      exact List.Sublist.cons e.start (ih (scanForward words i e.text))

/-- Splitting the event list splits the run: the second half starts from
the cursor the first half ends with. -/
theorem matchStep_append (words : List String) :
    ∀ (es₁ es₂ : List TimedEvent) (i : Nat),
      matchStep words i (es₁ ++ es₂) =
        ((matchStep words i es₁).1 ++ (matchStep words (matchStep words i es₁).2 es₂).1,
          (matchStep words (matchStep words i es₁).2 es₂).2) := by
  intro es₁
  induction es₁ with
  | nil => intro es₂ i; simp [matchStep_nil]
  | cons e es ih =>
    intro es₂ i
    rw [List.cons_append, matchStep_cons, matchStep_cons]
    by_cases h : scanForward words i e.text < words.length
    · simp only [h, if_true]
      rw [ih es₂ (scanForward words i e.text + 1)]
      simp
    · simp only [h, if_false]
      exact ih es₂ (scanForward words i e.text)

/-- On a run whose events agree text-for-text with the unconsumed tokens
starting at the cursor, every event matches in place: the `k`-th event
yields a record for token `i + k` and the cursor ends past the last
matched token. -/
theorem matchStep_prefix (words : List String) :
    ∀ (es : List TimedEvent) (i : Nat),
      (∀ k (hk : k < es.length), words[i + k]? = some (es.get ⟨k, hk⟩).text) →
      matchStep words i es = (es.mapIdx (fun k e => mkRecord (i + k) e), i + es.length) := by
  intro es
  induction es with
  | nil => intro i _; simp [matchStep_nil]
  | cons e es ih =>
    intro i hag
    have h0 := hag 0 (by simp)
    simp only [Nat.add_zero, List.get] at h0
    have hi : i < words.length := by
      by_contra hcon
      rw [List.getElem?_eq_none (Nat.le_of_not_lt hcon)] at h0
      cases h0
    have he : words[i] = e.text := by
      rw [List.getElem?_eq_getElem hi] at h0
      exact Option.some.inj h0
    rw [matchStep_cons,
      scanForward_of_match words i e.text hi ((List.get_eq_getElem words ⟨i, hi⟩).trans he)]
    simp only [hi, if_true]
    rw [ih (i + 1) ?_]
    · refine Prod.ext ?_ ?_
      · show mkRecord i e :: _ = _
        rw [List.mapIdx_cons]
        simp only [Nat.add_zero]
        congr 1
        have : (fun k e' => mkRecord (i + 1 + k) e') =
            (fun k e' => mkRecord (i + (k + 1)) e') := by
          funext k e'
          congr 1
          omega
        rw [this]
      · show i + 1 + es.length = i + (e :: es).length
        simp only [List.length_cons]
        omega
    · intro k hk
      have := hag (k + 1) (by simpa using Nat.succ_lt_succ hk)
      simp only [List.get] at this
      rw [show i + 1 + k = i + (k + 1) by omega]
      exact this

/-! ### Lemmas about the raw matching loop (with persistence and errors) -/

/-- Records persisted before the loop starts are kept in front of
whatever the loop persists; the cursor and the error do not depend on
them. -/
theorem matchLoopRaw_acc (words : List String) :
    ∀ (es : List RawEvent) (i : Nat) (acc : List TimestampRecord),
      matchLoopRaw words i es acc =
        (acc ++ (matchLoopRaw words i es []).1, (matchLoopRaw words i es []).2) := by
  intro es
  induction es with
  | nil => intro i acc; simp [matchLoopRaw]
  | cons e es ih =>
    intro i acc
    rcases e with ⟨etext, estart, estop⟩
    by_cases hi : i < words.length
    · cases etext with
      | none => simp [matchLoopRaw, hi]
      | some t =>
        by_cases hj : scanForward words i t < words.length
        · cases estart with
          | none => simp [matchLoopRaw, hi, hj]
          | some s =>
            simp only [matchLoopRaw, hi, if_true, hj]
            rw [ih (scanForward words i t + 1)
                (acc ++ [mkRecord (scanForward words i t) ⟨t, s, estop⟩]),
              ih (scanForward words i t + 1)
                ([] ++ [mkRecord (scanForward words i t) ⟨t, s, estop⟩])]
            simp [List.append_assoc]
        · simp only [matchLoopRaw, hi, if_true, hj, if_false]
          rw [ih (scanForward words i t) acc, ih (scanForward words i t) []]
    · simp only [matchLoopRaw, hi, if_false]
      rw [ih i acc, ih i []]

/-- When a first batch of events runs to completion without an error,
the loop over the concatenation continues into the second batch from the
cursor and the records the first batch ended with. -/
theorem matchLoopRaw_append_of_ok (words : List String) :
    ∀ (es₁ es₂ : List RawEvent) (i : Nat) (acc recs : List TimestampRecord) (j : Nat),
      matchLoopRaw words i es₁ acc = (recs, j, none) →
      matchLoopRaw words i (es₁ ++ es₂) acc = matchLoopRaw words j es₂ recs := by
  intro es₁
  induction es₁ with
  | nil =>
    intro es₂ i acc recs j h
    simp only [matchLoopRaw, Prod.mk.injEq] at h
    rw [List.nil_append, h.1, h.2.1]
  | cons e es ih =>
    intro es₂ i acc recs j h
    rcases e with ⟨etext, estart, estop⟩
    by_cases hi : i < words.length
    · cases etext with
      | none => simp [matchLoopRaw, hi] at h
      | some t =>
        by_cases hj : scanForward words i t < words.length
        · cases estart with
          | none => simp [matchLoopRaw, hi, hj] at h
          | some s =>
            simp only [matchLoopRaw, hi, if_true, hj] at h
            simp only [List.cons_append, matchLoopRaw, hi, if_true, hj]
            exact ih es₂ (scanForward words i t + 1) _ recs j h
        · simp only [matchLoopRaw, hi, if_true, hj, if_false] at h
          simp only [List.cons_append, matchLoopRaw, hi, if_true, hj, if_false]
          exact ih es₂ (scanForward words i t) acc recs j h
    · simp only [matchLoopRaw, hi, if_false] at h
      simp only [List.cons_append, matchLoopRaw, hi, if_false]
      exact ih es₂ i acc recs j h

/-- Consistency of the two views of the loop: on a response whose
objects all carry the required keys, the raw loop persists exactly the
records of the pure matcher, ends at the same cursor, and raises
nothing. -/
theorem matchLoopRaw_ofTimed (words : List String) :
    ∀ (es : List TimedEvent) (i : Nat) (acc : List TimestampRecord),
      matchLoopRaw words i (es.map RawEvent.ofTimed) acc =
        (acc ++ (matchStep words i es).1, (matchStep words i es).2, none) := by
  intro es
  induction es with
  | nil => intro i acc; simp [matchLoopRaw, matchStep_nil]
  | cons e es ih =>
    intro i acc
    by_cases hi : i < words.length
    · by_cases hj : scanForward words i e.text < words.length
      · simp only [List.map_cons, RawEvent.ofTimed, matchLoopRaw, hi, if_true, hj]
        rw [ih (scanForward words i e.text + 1)
          (acc ++ [mkRecord (scanForward words i e.text) ⟨e.text, e.start, e.stop⟩])]
        rw [matchStep_cons]
        simp only [hj, if_true, List.append_assoc, List.singleton_append]
      · simp only [List.map_cons, RawEvent.ofTimed, matchLoopRaw, hi, if_true, hj, if_false]
        rw [ih (scanForward words i e.text) acc, matchStep_cons]
        simp only [hj, if_false]
    · simp only [List.map_cons, RawEvent.ofTimed, matchLoopRaw, hi, if_false]
      rw [ih i acc, matchStep_of_ge words es i (Nat.le_of_not_lt hi),
        matchStep_of_ge words (e :: es) i (Nat.le_of_not_lt hi)]

/-! ### The claims -/

/-- C1, counterexample: the claim that an event whose text matches no
remaining unconsumed token leaves the cursor unchanged is false.  With
tokens `["a"]` and a first event `"b"` matching nothing, the cursor after
processing that event is `1` (the end of the token list), not the
unchanged `0`; consequently the second event `"a"`, whose token is still
unconsumed under the claim's reading, yields no record either. -/
theorem C1_counterexample :
    "b" ∉ (["a"] : List String).drop 0 ∧
    stepCursor ["a"] 0 ⟨"b", 0, none⟩ ≠ 0 ∧
    matchWords ["a"] [⟨"b", 0, none⟩, ⟨"a", 1, none⟩] = [] := by decide

/-- C1, amended: if an event's text matches no remaining unconsumed
token, the event is dropped and contributes no record, but the inner
scan consumes all remaining tokens, so the cursor is left at the end of
the token list; later events are still iterated, yet none of them can
emit a record any more. -/
theorem C1_amended_unmatched_event (words : List String) (i : Nat) (e : TimedEvent)
    (es : List TimedEvent) (hi : i ≤ words.length) (hmem : e.text ∉ words.drop i) :
    (matchStep words i (e :: es)).1 = [] ∧
    (matchStep words i (e :: es)).2 = words.length := by
  have hscan := scanForward_of_not_mem words i e.text hi hmem
  rw [matchStep_cons, hscan]
  simp only [Nat.lt_irrefl, if_false]
  rw [matchStep_of_ge words es words.length (Nat.le_refl _)]
  exact ⟨rfl, rfl⟩

/-- Witness for the amended C1 at tokens `["a"]`, events `"b"` then
`"a"`. -/
theorem C1_amended_witness :
    (0 ≤ (["a"] : List String).length ∧ "b" ∉ (["a"] : List String).drop 0) ∧
    (matchStep ["a"] 0 [⟨"b", 0, none⟩, ⟨"a", 1, none⟩]).1 = [] ∧
    (matchStep ["a"] 0 [⟨"b", 0, none⟩, ⟨"a", 1, none⟩]).2 = 1 :=
  ⟨⟨by decide, by decide⟩,
    C1_amended_unmatched_event ["a"] 0 ⟨"b", 0, none⟩ [⟨"a", 1, none⟩]
      (by decide) (by decide)⟩

/-- C3: the matcher emits at most `min |T| |E|` records: every record
consumes at least one event and at least one token. -/
theorem C3_at_most_min_records (words : List String) (es : List TimedEvent) :
    (matchWords words es).length ≤ min words.length es.length := by
  have h1 := matchStep_length_le_events words es 0
  have h2 := matchStep_length_le_words words es 0
  unfold matchWords
  omega

/-- C4: the token cursor never decreases — neither within one event
step (`stepCursor`) nor across a whole run — and the emitted records
bind strictly increasing, hence pairwise distinct, token indices: no
token is bound by more than one record. -/
theorem C4_monotone_cursor_unique_tokens (words : List String) (es : List TimedEvent) :
    (∀ (i : Nat) (e : TimedEvent), i ≤ stepCursor words i e) ∧
    (∀ (i : Nat), i ≤ (matchStep words i es).2) ∧
    ((matchWords words es).map TimestampRecord.wordIndex).Pairwise (fun a b => a < b) ∧
    ((matchWords words es).map TimestampRecord.wordIndex).Nodup := by
  refine ⟨?_, fun i => matchStep_cursor_ge words es i,
    matchStep_index_pairwise words es 0, ?_⟩
  · intro i e
    have := scanForward_ge words i e.text
    unfold stepCursor
    split <;> omega
  · exact List.Pairwise.imp (fun h => Nat.ne_of_lt h) (matchStep_index_pairwise words es 0)

/-- C5, counterexample: start times of the emitted records are NOT
always non-decreasing in token index order — the matcher copies the
service's offsets as they come.  With in-order texts but decreasing
start offsets (`5` then `1`), the records in token order carry start
times `5, 1`. -/
theorem C5_counterexample :
    (matchWords ["a", "b"] [⟨"a", 5, none⟩, ⟨"b", 1, none⟩]).map TimestampRecord.startTime
        = [5, 1] ∧
    ¬ (((matchWords ["a", "b"] [⟨"a", 5, none⟩, ⟨"b", 1, none⟩]).map
        TimestampRecord.startTime).Pairwise (fun a b => a ≤ b)) := by decide

/-- C5, amended: when the service's events carry non-decreasing start
offsets (as a well-behaved aligner produces), the start times of the
emitted records are non-decreasing in token index order, because they
form an in-order subsequence of the event offsets and emission order is
token index order. -/
theorem C5_amended_monotone_starts (words : List String) (es : List TimedEvent)
    (h : (es.map TimedEvent.start).Pairwise (fun a b => a ≤ b)) :
    ((matchWords words es).map TimestampRecord.startTime).Pairwise (fun a b => a ≤ b) :=
  h.sublist (matchStep_start_sublist words es 0)

/-- Witness for the amended C5 on a two-event run with start offsets
`1 ≤ 2`. -/
theorem C5_amended_witness :
    (([⟨"a", 1, none⟩, ⟨"b", 2, none⟩] : List TimedEvent).map TimedEvent.start).Pairwise
        (fun a b => a ≤ b) ∧
    ((matchWords ["a", "b"] [⟨"a", 1, none⟩, ⟨"b", 2, none⟩]).map
        TimestampRecord.startTime).Pairwise (fun a b => a ≤ b) :=
  ⟨by decide, C5_amended_monotone_starts ["a", "b"] [⟨"a", 1, none⟩, ⟨"b", 2, none⟩]
    (by decide)⟩

/-- C8: an empty event list, or an empty token list, yields zero records
(and the matcher, a total function, raises nothing). -/
theorem C8_empty_inputs (words : List String) (es : List TimedEvent) :
    matchWords words [] = [] ∧ matchWords [] es = [] := by
  refine ⟨rfl, ?_⟩
  unfold matchWords
  rw [matchStep_of_ge [] es 0 (Nat.le_refl 0)]

/-- C9: the code tests truthiness, not presence, of the `end` field
(`if word_data.get('end')`), so an explicit end offset of `0` produces
the same record as an absent end offset: the record carries no end time,
as a full run on a one-word match shows. -/
theorem C9_zero_end_is_absent (j : Nat) (t : String) (s : ℚ) :
    mkRecord j ⟨t, s, some 0⟩ = mkRecord j ⟨t, s, none⟩ ∧
    (mkRecord j ⟨t, s, some 0⟩).endTime = none ∧
    matchWords [t] [⟨t, s, some 0⟩] = [⟨0, s, none⟩] := by
  refine ⟨by simp [mkRecord, truthy], rfl, ?_⟩
  simp [matchWords, matchStep, scanForward, scanAux, mkRecord, truthy]

/-- C2: when every event's text agrees with the same-position token
(`E[k].text = T[k].text` for all `k < min n m`), the matcher emits
exactly `min n m` records, and the `k`-th record is `mkRecord k E[k]`:
token `k` bound to event `k`'s start and end offsets. -/
theorem C2_in_order_full_match (words : List String) (es : List TimedEvent)
    (hag : ∀ k, k < min words.length es.length →
      Option.map TimedEvent.text es[k]? = words[k]?) :
    matchWords words es =
      (es.take (min words.length es.length)).mapIdx (fun k e => mkRecord k e) ∧
    (matchWords words es).length = min words.length es.length := by
  have hp_es : min words.length es.length ≤ es.length := Nat.min_le_right _ _
  have hlen_take : (es.take (min words.length es.length)).length
      = min words.length es.length := by
    rw [List.length_take]
    omega
  have hagree : ∀ k (hk : k < (es.take (min words.length es.length)).length),
      words[0 + k]? =
        some ((es.take (min words.length es.length)).get ⟨k, hk⟩).text := by
    intro k hk
    have hkp : k < min words.length es.length := by omega
    have hkm : k < es.length := by omega
    have hget : (es.take (min words.length es.length)).get ⟨k, hk⟩
        = es.get ⟨k, hkm⟩ := by
      simp [List.get_eq_getElem, List.getElem_take']
    have h1 := hag k hkp
    rw [List.getElem?_eq_getElem hkm, Option.map_some'] at h1
    rw [Nat.zero_add, hget, ← h1]
    simp [List.get_eq_getElem]
  have hmain := matchStep_prefix words (es.take (min words.length es.length)) 0 hagree
  have hfirst : matchWords words es =
      (es.take (min words.length es.length)).mapIdx (fun k e => mkRecord k e) := by
    unfold matchWords
    conv_lhs => rw [← List.take_append_drop (min words.length es.length) es]
    rw [matchStep_append, hmain]
    dsimp only
    have hrest :
        (matchStep words (0 + (es.take (min words.length es.length)).length)
          (es.drop (min words.length es.length))).1 = [] := by
      rw [hlen_take, Nat.zero_add]
      rcases Nat.le_total words.length es.length with hle | hle
      · rw [matchStep_of_ge words (es.drop (min words.length es.length))
          (min words.length es.length) (by omega)]
      · have hdrop : es.drop (min words.length es.length) = [] := by
          have h : min words.length es.length = es.length := by omega
          rw [h, List.drop_length]
        rw [hdrop, matchStep_nil]
    rw [hrest, List.append_nil]
    congr 1
    funext k e
    rw [Nat.zero_add]
  refine ⟨hfirst, ?_⟩
  rw [hfirst, List.length_mapIdx, hlen_take]

/-- Witness for C2: two tokens, two in-order matching events, two
records binding token `k` to event `k`. -/
theorem C2_witness :
    (∀ k, k < min (["a", "b"] : List String).length
        ([⟨"a", 0, some 1⟩, ⟨"b", 2, some 3⟩] : List TimedEvent).length →
      Option.map TimedEvent.text
        ([⟨"a", 0, some 1⟩, ⟨"b", 2, some 3⟩] : List TimedEvent)[k]? =
        (["a", "b"] : List String)[k]?) ∧
    matchWords ["a", "b"] [⟨"a", 0, some 1⟩, ⟨"b", 2, some 3⟩] =
      (([⟨"a", 0, some 1⟩, ⟨"b", 2, some 3⟩] : List TimedEvent).take 2).mapIdx
        (fun k e => mkRecord k e) :=
  ⟨by decide,
    (C2_in_order_full_match ["a", "b"] [⟨"a", 0, some 1⟩, ⟨"b", 2, some 3⟩]
      (by decide)).1⟩

/-- C6: with an empty audio URL or an empty concatenated text, the run
short-circuits: the missing-input failure is returned, nothing is
persisted, no network call is issued, and exactly one failure
notification is created when a user is resolvable (none otherwise). -/
theorem C6_missing_input_short_circuit (audioUrl : String) (words : List String)
    (user : Bool) (resp : HttpResponse)
    (h : audioUrl = "" ∨ String.intercalate " " words = "") :
    runTask audioUrl words user resp =
      { result := TaskResult.missingInput, networkCalled := false, persisted := []
        notifications := if user then [MessageType.failed] else [] } := by
  simp only [runTask]
  rw [if_pos h]

/-- Witness for C6 at an empty audio URL: failure result, no network
call, one failure notification. -/
theorem C6_witness :
    (("" : String) = "" ∨ String.intercalate " " (["a"] : List String) = "") ∧
    runTask "" ["a"] true ⟨200, some []⟩ =
      { result := TaskResult.missingInput, networkCalled := false, persisted := []
        notifications := [MessageType.failed] } :=
  ⟨Or.inl rfl,
    C6_missing_input_short_circuit "" ["a"] true ⟨200, some []⟩ (Or.inl rfl)⟩

/-- C7, counterexample: `raise_for_status()` raises only for status
codes in `[400, 600)`, not for every non-2xx status.  A 304 response
whose body parses as an empty JSON list is a non-2xx response on which
the run does not fail: it returns the success result and creates a
success notification. -/
theorem C7_counterexample :
    (304 < 200 ∨ 300 ≤ 304) ∧
    runTask "u" ["a"] true ⟨304, some []⟩ =
      { result := TaskResult.generated, networkCalled := true, persisted := []
        notifications := [MessageType.success] } := by decide

/-- C7, amended: when the service answers with an HTTP error status
(4xx/5xx, e.g. 500), the run fails: the descriptive failure result is
returned (no exception escapes — the run is a total function into
`RunOutcome`), nothing is persisted, and exactly one failure
notification is created when a user is resolvable (none otherwise). -/
theorem C7_amended_http_error (audioUrl : String) (words : List String)
    (user : Bool) (resp : HttpResponse) (hurl : ¬ audioUrl = "")
    (htext : ¬ String.intercalate " " words = "")
    (hstatus : 400 ≤ resp.status ∧ resp.status < 600) :
    runTask audioUrl words user resp =
      { result := TaskResult.failedGenerate "HTTPError", networkCalled := true
        persisted := [], notifications := if user then [MessageType.failed] else [] } := by
  simp only [runTask]
  rw [if_neg (by rintro (h | h); exacts [hurl h, htext h]), if_pos hstatus]

/-- Witness for the amended C7 at HTTP 500. -/
theorem C7_amended_witness :
    (¬ ("u" : String) = "" ∧ ¬ String.intercalate " " (["a"] : List String) = "" ∧
      400 ≤ 500 ∧ 500 < 600) ∧
    runTask "u" ["a"] true ⟨500, none⟩ =
      { result := TaskResult.failedGenerate "HTTPError", networkCalled := true
        persisted := [], notifications := [MessageType.failed] } :=
  ⟨⟨by decide, by decide, by decide, by decide⟩,
    C7_amended_http_error "u" ["a"] true ⟨500, none⟩ (by decide) (by decide)
      ⟨by decide, by decide⟩⟩

/-- C10: when an event lacking its `text` key is reached after earlier
events already matched (and the cursor has not exhausted the tokens),
the `KeyError` aborts the loop and is absorbed into a failure outcome —
but every record persisted for the earlier events is kept: the
matching/persistence phase is not atomic and performs no rollback. -/
theorem C10_partial_persistence_on_error (audioUrl : String) (words : List String)
    (user : Bool) (es₁ : List RawEvent) (e : RawEvent) (es₂ : List RawEvent)
    (recs : List TimestampRecord) (j : Nat)
    (hurl : ¬ audioUrl = "") (htext : ¬ String.intercalate " " words = "")
    (h1 : matchLoopRaw words 0 es₁ [] = (recs, j, none))
    (hj : j < words.length) (hbad : e.text = none) :
    runTask audioUrl words user ⟨200, some (es₁ ++ e :: es₂)⟩ =
      { result := TaskResult.failedGenerate "KeyError: text", networkCalled := true
        persisted := recs, notifications := if user then [MessageType.failed] else [] } := by
  have hloop : matchLoopRaw words 0 (es₁ ++ e :: es₂) []
      = (recs, j, some "KeyError: text") := by
    rw [matchLoopRaw_append_of_ok words es₁ (e :: es₂) 0 [] recs j h1]
    rcases e with ⟨etext, estart, estop⟩
    simp only at hbad
    subst hbad
    simp [matchLoopRaw, hj]
  simp only [runTask]
  rw [if_neg (by rintro (h | h); exacts [hurl h, htext h]), if_neg (by decide)]
  rw [hloop]

/-- Witness for C10: token list `["a", "b"]`, a first event matching
`"a"` (persisted), then an event with no `text` key: the run fails but
the first record remains persisted. -/
theorem C10_witness :
    (¬ ("u" : String) = "" ∧ ¬ String.intercalate " " (["a", "b"] : List String) = "" ∧
      matchLoopRaw ["a", "b"] 0 [⟨some "a", some 0, none⟩] []
        = ([⟨0, 0, none⟩], 1, none) ∧
      (1 : Nat) < (["a", "b"] : List String).length ∧
      (⟨none, none, none⟩ : RawEvent).text = none) ∧
    runTask "u" ["a", "b"] true
        ⟨200, some [⟨some "a", some 0, none⟩, ⟨none, none, none⟩]⟩ =
      { result := TaskResult.failedGenerate "KeyError: text", networkCalled := true
        persisted := [⟨0, 0, none⟩], notifications := [MessageType.failed] } :=
  ⟨⟨by decide, by decide, by decide, by decide, rfl⟩,
    C10_partial_persistence_on_error "u" ["a", "b"] true [⟨some "a", some 0, none⟩]
      ⟨none, none, none⟩ [] [⟨0, 0, none⟩] 1 (by decide) (by decide) (by decide)
      (by decide) rfl⟩

/-- The concrete skip-ahead scenario of the specification:
`T = [a, b, a, c]`, events `a` then `c` — the first event binds token 0,
the second skips tokens 1 and 2 and binds token 3; neither `b` nor the
second `a` receives a record. -/
theorem spec_scenario_skip_ahead :
    matchWords ["a", "b", "a", "c"] [⟨"a", 0, some 1⟩, ⟨"c", 2, some 3⟩] =
      [⟨0, 0, some 1⟩, ⟨3, 2, some 3⟩] := by decide

end QuranTasks
